import Mathlib

/-!
A shallow embedding of the key-overlay-rs overlay core (bars, layout, fading,
configuration loading, and the frame orchestrator) together with proofs of the
behavioural properties stated in the specification.

Modelling conventions:
* Rust `f32` values are modelled as rationals (`ℚ`); every operation the
  properties mention (addition, multiplication by a constant, comparison)
  is exact on the values involved.
* `HashMap<String, BarColumn>` is modelled as a function `String → Option BarColumn`
  (the map is only ever accessed pointwise; iteration in the source applies the
  same transformation to every value).
* `std::time::Instant` is modelled as a rational timestamp in milliseconds;
  `Instant::duration_since` saturates at zero exactly like the Rust API.
-/

/-- RGBA color with normalized channels (src/types.rs, `Color`). -/
structure Color where
  r : ℚ
  g : ℚ
  b : ℚ
  a : ℚ
deriving DecidableEq, Repr

/-- The golden-ratio dimming constant from src/types.rs. -/
def golden_ratio_value : ℚ := 1.618

namespace Color

/-- `Color::from_rgba_u8` (src/types.rs): normalizes byte channels. -/
def from_rgba_u8 (r g b a : ℕ) : Color :=
  ⟨r / 255, g / 255, b / 255, a / 255⟩

/-- `Color::black` (src/types.rs). -/
def black : Color := from_rgba_u8 0 0 0 255

/-- `Color::pressed` (src/types.rs): golden-ratio alpha dimming. -/
def pressed (c : Color) : Color :=
  { c with a := c.a / golden_ratio_value }

end Color

/-- Per-key configuration (src/types.rs, `KeyConfig`). -/
structure KeyConfig where
  key_name : String
  display_name : String
  color : Color
  size : ℚ
deriving DecidableEq, Repr

/-- Full application configuration (src/types.rs, `AppConfig`). -/
structure AppConfig where
  height : ℚ
  key_size : ℚ
  bar_speed : ℚ
  background_color : Color
  margin : ℚ
  outline_thickness : ℚ
  fading : Bool
  counter : Bool
  fps : ℕ
  keys : List KeyConfig
deriving DecidableEq, Repr

/-- `AppConfig::default` (src/types.rs, `impl Default for AppConfig`). -/
def AppConfig.default : AppConfig where
  height := 700
  key_size := 70
  bar_speed := 600
  background_color := Color.black
  margin := 25
  outline_thickness := 5
  fading := true
  counter := true
  fps := 60
  keys :=
    [ { key_name := "Z", display_name := "Z"
        color := Color.from_rgba_u8 255 0 0 255, size := 1 },
      { key_name := "X", display_name := "X"
        color := Color.from_rgba_u8 0 255 255 255, size := 1 } ]

/-- One visual bar segment (src/bars.rs, `Bar`). -/
structure Bar where
  y_position : ℚ
  height : ℚ
  color : Color
  pressed_color : Color
deriving DecidableEq, Repr

/-- Per-key bar column (src/bars.rs, `BarColumn`). -/
structure BarColumn where
  bars : List Bar
  press_count : ℕ
  is_held : Bool
  color : Color
deriving DecidableEq, Repr

/-- Applies `f` to the last element of a list, as Rust's `last_mut` pattern does. -/
def mapLast (f : Bar → Bar) : List Bar → List Bar
  | [] => []
  | [b] => [f b]
  | b :: rest => b :: mapLast f rest

namespace BarColumn

/-- `BarColumn::new` (src/bars.rs). -/
def new (color : Color) : BarColumn :=
  { bars := [], press_count := 0, is_held := false, color := color }

/-- `BarColumn::on_key_press` (src/bars.rs): appends a fresh bar at the origin,
bumps the press counter, and marks the column held. -/
def on_key_press (c : BarColumn) : BarColumn :=
  { c with
    bars := c.bars ++
      [{ y_position := 0, height := 1, color := c.color
         pressed_color := c.color.pressed }]
    press_count := c.press_count + 1
    is_held := true }

/-- `BarColumn::on_key_release` (src/bars.rs). -/
def on_key_release (c : BarColumn) : BarColumn :=
  { c with is_held := false }

/-- `BarColumn::update` (src/bars.rs): no-op for `dt <= 0`; otherwise every bar
travels by `bar_speed * dt` and, while held, the last bar also grows by it. -/
def update (c : BarColumn) (dt bar_speed : ℚ) : BarColumn :=
  if dt ≤ 0 then c
  else
    let delta := bar_speed * dt
    let moved := c.bars.map fun b => { b with y_position := b.y_position + delta }
    if c.is_held then
      { c with bars := mapLast (fun b => { b with height := b.height + delta }) moved }
    else
      { c with bars := moved }

/-- `BarColumn::remove_offscreen` (src/bars.rs): `retain(|bar| bar.y_position <= window_height)`. -/
def remove_offscreen (c : BarColumn) (window_height : ℚ) : BarColumn :=
  { c with bars := c.bars.filter fun b => decide (b.y_position ≤ window_height) }

end BarColumn

/-- Animation engine state (src/bars.rs, `BarManager`); the `HashMap` of
columns is modelled as a pointwise function from key names. -/
structure BarManager where
  columns : String → Option BarColumn
  bar_speed : ℚ

namespace BarManager

/-- `BarManager::new` (src/bars.rs). -/
def new (bar_speed : ℚ) : BarManager :=
  { columns := fun _ => none, bar_speed := bar_speed }

/-- `BarManager::on_key_press` (src/bars.rs): `entry(key).or_insert_with(new)`
followed by the column-level press. -/
def on_key_press (m : BarManager) (key : String) (color : Color) : BarManager :=
  let column := (m.columns key).getD (BarColumn.new color)
  { m with columns := fun k => if k = key then some column.on_key_press else m.columns k }

/-- `BarManager::on_key_release` (src/bars.rs): release on the column if it exists. -/
def on_key_release (m : BarManager) (key : String) : BarManager :=
  match m.columns key with
  | some column =>
      { m with columns := fun k => if k = key then some column.on_key_release else m.columns k }
  | none => m

/-- `BarManager::update` (src/bars.rs): advances every column. -/
def update (m : BarManager) (dt : ℚ) : BarManager :=
  { m with columns := fun k => (m.columns k).map fun c => c.update dt m.bar_speed }

/-- `BarManager::remove_offscreen` (src/bars.rs): culls every column. -/
def remove_offscreen (m : BarManager) (window_height : ℚ) : BarManager :=
  { m with columns := fun k => (m.columns k).map fun c => c.remove_offscreen window_height }

end BarManager

/-- `calculate_fade_alpha` (src/fading.rs): piecewise linear fade near the top. -/
def calculate_fade_alpha (y_position window_height fade_height : ℚ) : ℚ :=
  if fade_height ≤ 0 then
    if y_position < window_height then 1 else 0
  else if y_position ≤ window_height - fade_height then 1
  else if y_position ≥ window_height then 0
  else
    let fade_start := window_height - fade_height
    let distance_from_start := y_position - fade_start
    1 - distance_from_start / fade_height

/-- `calculate_column_width` (src/layout.rs). -/
def calculate_column_width (key_size size_multiplier outline_thickness margin : ℚ) : ℚ :=
  key_size * size_multiplier + outline_thickness * 2 + margin

/-- `calculate_window_width` (src/layout.rs): initial margin plus a running sum
of column widths, exactly as the source loop accumulates. -/
def calculate_window_width (config : AppConfig) : ℚ :=
  config.keys.foldl
    (fun total key =>
      total + calculate_column_width config.key_size key.size
        config.outline_thickness config.margin)
    config.margin

/-- Loop body of `calculate_key_x_positions` (src/layout.rs), recursing over the
remaining keys with the running x coordinate. -/
def keyXPositionsAux (config : AppConfig) : List KeyConfig → ℚ → List ℚ
  | [], _ => []
  | key :: rest, current_x =>
      current_x ::
        keyXPositionsAux config rest
          (current_x + calculate_column_width config.key_size key.size
            config.outline_thickness config.margin)

/-- `calculate_key_x_positions` (src/layout.rs): left-to-right running sum
starting at the margin. -/
def calculate_key_x_positions (config : AppConfig) : List ℚ :=
  keyXPositionsAux config config.keys config.margin

/-- Input events emitted by input backends (src/types.rs, `InputEvent`). -/
inductive InputEvent where
  | KeyPress (key : String)
  | KeyRelease (key : String)
  | MousePress (key : String)
  | MouseRelease (key : String)
deriving DecidableEq, Repr

/-- Renderer state (src/renderer.rs, `Renderer`); the egui/glfw handles carry no
state of their own and are omitted. -/
structure Renderer where
  config : AppConfig
  bar_manager : BarManager
  key_positions : List ℚ
  last_frame_time : Option ℚ
  font_loaded : Bool

namespace Renderer

/-- `Renderer::new` (src/renderer.rs). -/
def new (config : AppConfig) : Renderer :=
  { config := config
    bar_manager := BarManager.new config.bar_speed
    key_positions := calculate_key_x_positions config
    last_frame_time := none
    font_loaded := false }

/-- `Renderer::on_key_press` (src/renderer.rs): only keys found in the active
configuration's key list reach the bar manager. -/
def on_key_press (r : Renderer) (key_name : String) : Renderer :=
  match r.config.keys.find? (fun key => key.key_name == key_name) with
  | some key => { r with bar_manager := r.bar_manager.on_key_press key.key_name key.color }
  | none => r

/-- `Renderer::on_key_release` (src/renderer.rs). -/
def on_key_release (r : Renderer) (key_name : String) : Renderer :=
  { r with bar_manager := r.bar_manager.on_key_release key_name }

/-- `Renderer::set_config` (src/renderer.rs): swaps the active configuration,
recomputes key positions and propagates the bar speed. -/
def set_config (r : Renderer) (config : AppConfig) : Renderer :=
  { r with
    config := config
    key_positions := calculate_key_x_positions config
    bar_manager := { r.bar_manager with bar_speed := config.bar_speed } }

/-- `Renderer::desired_window_size` (src/renderer.rs). -/
def desired_window_size (r : Renderer) : ℚ × ℚ :=
  (calculate_window_width r.config, r.config.height)

end Renderer

/-- `ESCAPE_KEY_NAME` (src/app.rs). -/
def escapeKeyName : String := "Escape"

/-- `DOUBLE_ESCAPE_INTERVAL` (src/app.rs), in milliseconds. -/
def doubleEscapeInterval : ℚ := 400

/-- `Instant::duration_since`, saturating at zero, in milliseconds. -/
def durationSince (now earlier : ℚ) : ℚ :=
  if now ≤ earlier then 0 else now - earlier

/-- Orchestrator state (src/app.rs, `AppOrchestrator`); the channels are
modelled by the event lists handed to the drain functions, and the shutdown
flag by an explicit argument. -/
structure AppOrchestrator where
  renderer : Renderer
  escape_down : Bool
  last_escape_press_at : Option ℚ

namespace AppOrchestrator

/-- `AppOrchestrator::new` (src/app.rs). -/
def new (renderer : Renderer) : AppOrchestrator :=
  { renderer := renderer, escape_down := false, last_escape_press_at := none }

/-- `AppOrchestrator::process_config_updates` (src/app.rs): applies every
drained snapshot in arrival order via `Renderer::set_config`. -/
def process_config_updates (st : AppOrchestrator) (drained : List AppConfig) : AppOrchestrator :=
  { st with renderer := drained.foldl Renderer.set_config st.renderer }

/-- `AppOrchestrator::should_close_on_double_escape` (src/app.rs): edge-triggered
double-tap detector; `now` stands for the `Instant::now()` taken inside. -/
def should_close_on_double_escape (st : AppOrchestrator) (now : ℚ) :
    Bool × AppOrchestrator :=
  if st.escape_down then
    (false, st)
  else
    let st := { st with escape_down := true }
    match st.last_escape_press_at with
    | some previous =>
        if durationSince now previous ≤ doubleEscapeInterval then
          (true, { st with last_escape_press_at := none })
        else
          (false, { st with last_escape_press_at := some now })
    | none => (false, { st with last_escape_press_at := some now })

/-- One iteration of the `process_input_events` loop body (src/app.rs);
`now` is the clock value at the moment the event is handled. -/
def handle_event (st : AppOrchestrator) (is_window_focused : Bool)
    (event : InputEvent) (now : ℚ) : Bool × AppOrchestrator :=
  match event with
  | .KeyPress key =>
      if key = escapeKeyName ∧ is_window_focused then
        let (close, st) := st.should_close_on_double_escape now
        (close, { st with renderer := st.renderer.on_key_press key })
      else
        (false, { st with renderer := st.renderer.on_key_press key })
  | .MousePress key =>
      (false, { st with renderer := st.renderer.on_key_press key })
  | .KeyRelease key =>
      let st := if key = escapeKeyName then { st with escape_down := false } else st
      (false, { st with renderer := st.renderer.on_key_release key })
  | .MouseRelease key =>
      (false, { st with renderer := st.renderer.on_key_release key })

/-- `AppOrchestrator::process_input_events` (src/app.rs): drains the pending
events in arrival order, accumulating the should-close decision. -/
def process_input_events (st : AppOrchestrator) (is_window_focused : Bool)
    (events : List (InputEvent × ℚ)) : Bool × AppOrchestrator :=
  events.foldl
    (fun acc ev =>
      let (close, st) := acc.2.handle_event is_window_focused ev.1 ev.2
      (acc.1 || close, st))
    (false, st)

end AppOrchestrator

/-- Raw `[general]` TOML section (src/config.rs, `RawGeneral`); color strings
are represented by their already-parsed values, string-to-color parsing being
the external color module's concern. -/
structure RawGeneral where
  height : Option ℚ := none
  key_size : Option ℚ := none
  bar_speed : Option ℚ := none
  background_color : Option Color := none
  margin : Option ℚ := none
  outline_thickness : Option ℚ := none
  fading : Option Bool := none
  counter : Option Bool := none
  fps : Option ℕ := none
deriving DecidableEq, Repr

/-- Raw `[[key]]` TOML section (src/config.rs, `RawKeyConfig`). -/
structure RawKeyConfig where
  name : Option String := none
  color : Option Color := none
  size : Option ℚ := none
deriving DecidableEq, Repr

/-- Raw TOML configuration (src/config.rs, `RawConfig`). -/
structure RawConfig where
  general : RawGeneral := {}
  key : List RawKeyConfig := []
deriving DecidableEq, Repr

/-- Does the pattern occur at the head of the character list? -/
def charsMatchAt : List Char → List Char → Bool
  | _, [] => true
  | [], _ :: _ => false
  | c :: cs, p :: ps => c = p && charsMatchAt cs ps

/-- Does the pattern occur anywhere in the character list? -/
def charsContain : List Char → List Char → Bool
  | s, pat =>
    match s with
    | [] => pat.isEmpty
    | _ :: rest => charsMatchAt s pat || charsContain rest pat

/-- Rust's `str::contains` for literal patterns. -/
def strContainsSub (s pat : String) : Bool :=
  charsContain s.toList pat.toList

/-- `validate_config` (src/config.rs): non-fatal warnings for a resolved config. -/
def validate_config (config : AppConfig) : List String :=
  (if config.bar_speed ≤ 0 then
    ["bar_speed must be positive; using default 600"]
  else []) ++
  (if config.keys.isEmpty then
    ["keys list is empty; using defaults is recommended"]
  else [])

/-- `parse_raw_keys` (src/config.rs): a key entry without a (non-empty, trimmed)
name is a hard error; color defaults to white and size to 1. -/
def parse_raw_keys : List RawKeyConfig → Except String (List KeyConfig)
  | [] => .ok []
  | raw_key :: rest =>
      match (raw_key.name.map String.trim).filter (fun value => !value.isEmpty) with
      | none => .error "key entry missing required name"
      | some key_name => do
          let parsed_rest ← parse_raw_keys rest
          .ok ({ key_name := key_name
                 display_name := key_name
                 color := raw_key.color.getD (Color.from_rgba_u8 255 255 255 255)
                 size := raw_key.size.getD 1 } :: parsed_rest)

/-- The `AppConfig` struct literal built inside `load_from_str` (src/config.rs),
before the validation-warning fixup loop runs. -/
def resolveRaw (raw : RawConfig) : Except String AppConfig := do
  let defaults := AppConfig.default
  let keys ←
    if raw.key.isEmpty then .ok defaults.keys else parse_raw_keys raw.key
  .ok
    { height := raw.general.height.getD defaults.height
      key_size := raw.general.key_size.getD defaults.key_size
      bar_speed := raw.general.bar_speed.getD defaults.bar_speed
      background_color := raw.general.background_color.getD defaults.background_color
      margin := raw.general.margin.getD defaults.margin
      outline_thickness := raw.general.outline_thickness.getD defaults.outline_thickness
      fading := raw.general.fading.getD defaults.fading
      counter := raw.general.counter.getD defaults.counter
      fps := raw.general.fps.getD defaults.fps
      keys := keys }

/-- The warning fixup loop of `load_from_str` (src/config.rs): every warning
mentioning `bar_speed` resets the speed to the default. -/
def applyValidationFixup (config : AppConfig) : AppConfig :=
  (validate_config config).foldl
    (fun c warning =>
      if strContainsSub warning "bar_speed" then
        { c with bar_speed := AppConfig.default.bar_speed }
      else c)
    config

/-- `load_from_str` (src/config.rs) after TOML decoding: resolves defaults,
then applies the validation fixup. Only the `Ok` snapshots ever reach the
config queue (src/watcher.rs drops the `Err` case with a warning). -/
def load_from_raw (raw : RawConfig) : Except String AppConfig := do
  let config ← resolveRaw raw
  .ok (applyValidationFixup config)

/-- Sample color used by the concrete scenarios (mirrors the repo's test color). -/
def sampleColor : Color := Color.from_rgba_u8 255 64 32 255

/-- The column created by a single press on a fresh column of `sampleColor`. -/
def columnZ1 : BarColumn := (BarColumn.new sampleColor).on_key_press

/-- Manager after pressing key Z once, with `bar_speed = 60` (spec scenario). -/
def managerZ : BarManager := (BarManager.new 60).on_key_press "Z" sampleColor

/-- Manager holding both Z and X simultaneously, with `bar_speed = 60`. -/
def managerZX : BarManager :=
  ((BarManager.new 60).on_key_press "Z" sampleColor).on_key_press "X" sampleColor

/-- A column with bars below, exactly at, and strictly beyond `y = 700`. -/
def cullColumnZ : BarColumn :=
  { bars :=
      [ ({ y_position := 25, height := 10, color := sampleColor, pressed_color := sampleColor } : Bar),
        ({ y_position := 700, height := 5, color := sampleColor, pressed_color := sampleColor } : Bar),
        ({ y_position := 701, height := 5, color := sampleColor, pressed_color := sampleColor } : Bar) ]
    press_count := 3
    is_held := false
    color := sampleColor }

/-- Manager holding only `cullColumnZ`, used to exercise the cull pass. -/
def cullManager : BarManager :=
  { columns := fun k => if k = "Z" then some cullColumnZ else none, bar_speed := 600 }

/-- A freshly started orchestrator over the default configuration. -/
def freshOrchestrator : AppOrchestrator :=
  AppOrchestrator.new (Renderer.new AppConfig.default)

/-- An orchestrator that is armed (previous cancel press at time 0, key released). -/
def armedOrchestrator : AppOrchestrator :=
  { renderer := Renderer.new AppConfig.default
    escape_down := false
    last_escape_press_at := some 0 }

/-- A raw snapshot with an invalid (negative) bar speed and a changed height. -/
def rawNegSpeed : RawConfig :=
  { general := { height := some 800, bar_speed := some (-25) }, key := [] }

/-- An extra key appended in the width-growth scenario. -/
def extraKeyC : KeyConfig :=
  { key_name := "C", display_name := "C", color := Color.black, size := 1 }

theorem foldl_add_map (f : KeyConfig → ℚ) :
    ∀ (l : List KeyConfig) (x : ℚ),
      l.foldl (fun total key => total + f key) x = x + (l.map f).sum := by
  intro l
  induction l with
  | nil => intro x; simp
  | cons key rest ih =>
      intro x
      simp only [List.foldl_cons, List.map_cons, List.sum_cons]
      rw [ih]
      ring

/-- C6: the fade alpha function is 1 below the fade region (y below the window
top when the fade height is nonpositive), 0 at or above the window top, and the
linear ramp `1 - (y - (window_height - fade_height)) / fade_height` in between;
with `window_height = 700` and `fade_height = 140`, `alpha 100 = 1`,
`alpha 630 = 1/2` and `alpha 700 = 0`. -/
theorem fade_alpha_piecewise :
    ∀ y h fh : ℚ,
      (fh ≤ 0 → y < h → calculate_fade_alpha y h fh = 1) ∧
      (fh ≤ 0 → h ≤ y → calculate_fade_alpha y h fh = 0) ∧
      (0 < fh → y ≤ h - fh → calculate_fade_alpha y h fh = 1) ∧
      (0 < fh → h ≤ y → calculate_fade_alpha y h fh = 0) ∧
      (0 < fh → h - fh < y → y < h →
        calculate_fade_alpha y h fh = 1 - (y - (h - fh)) / fh) ∧
      calculate_fade_alpha 100 700 140 = 1 ∧
      calculate_fade_alpha 630 700 140 = 1/2 ∧
      calculate_fade_alpha 700 700 140 = 0 := by
  intro y h fh
  refine ⟨?_, ?_, ?_, ?_, ?_, by norm_num [calculate_fade_alpha],
    by norm_num [calculate_fade_alpha], by norm_num [calculate_fade_alpha]⟩
  · intro hfh hy
    simp only [calculate_fade_alpha]
    rw [if_pos hfh, if_pos hy]
  · intro hfh hy
    simp only [calculate_fade_alpha]
    rw [if_pos hfh, if_neg (not_lt.mpr hy)]
  · intro hfh hy
    simp only [calculate_fade_alpha]
    rw [if_neg (not_le.mpr hfh), if_pos hy]
  · intro hfh hy
    simp only [calculate_fade_alpha]
    rw [if_neg (not_le.mpr hfh), if_neg (by intro hcontra; linarith),
      if_pos (show y ≥ h from hy)]
  · intro hfh hlow hhigh
    simp only [calculate_fade_alpha]
    rw [if_neg (not_le.mpr hfh), if_neg (not_le.mpr hlow),
      if_neg (show ¬ y ≥ h from not_le.mpr hhigh)]

theorem fade_alpha_piecewise_witness :
    (0:ℚ) < 140 ∧ (700:ℚ) - 140 < 630 ∧ (630:ℚ) < 700 ∧
      calculate_fade_alpha 630 700 140 = 1 - ((630:ℚ) - (700 - 140)) / 140 :=
  ⟨by norm_num, by norm_num, by norm_num,
    (fade_alpha_piecewise 630 700 140).2.2.2.2.1 (by norm_num) (by norm_num)
      (by norm_num)⟩

/-- C7: the computed window width equals the margin plus the sum over keys, in
configuration order, of `key_size * size_multiplier + 2 * outline_thickness +
margin`; the default configuration (key_size 70, margin 25, outline 5, two keys
of size 1) yields 235; and appending a further key of positive size strictly
increases the width. -/
theorem window_width_formula :
    (∀ config : AppConfig,
      calculate_window_width config =
        config.margin + (config.keys.map fun key =>
          calculate_column_width config.key_size key.size
            config.outline_thickness config.margin).sum) ∧
    calculate_window_width AppConfig.default = 235 ∧
    (∀ (config : AppConfig) (key : KeyConfig),
      0 < config.key_size * key.size → 0 ≤ config.outline_thickness →
      0 ≤ config.margin →
      calculate_window_width config <
        calculate_window_width { config with keys := config.keys ++ [key] }) := by
  have hformula : ∀ config : AppConfig,
      calculate_window_width config =
        config.margin + (config.keys.map fun key =>
          calculate_column_width config.key_size key.size
            config.outline_thickness config.margin).sum := by
    intro config
    exact foldl_add_map _ config.keys config.margin
  refine ⟨hformula, by norm_num [calculate_window_width, AppConfig.default,
    calculate_column_width], ?_⟩
  intro config key hpos houtline hmargin
  rw [hformula, hformula]
  simp only [List.map_append, List.sum_append, List.map_cons, List.map_nil,
    List.sum_cons, List.sum_nil]
  have hw : 0 < calculate_column_width config.key_size key.size
      config.outline_thickness config.margin := by
    simp only [calculate_column_width]
    nlinarith
  linarith

theorem window_width_formula_witness :
    (0:ℚ) < AppConfig.default.key_size * extraKeyC.size ∧
    (0:ℚ) ≤ AppConfig.default.outline_thickness ∧
    (0:ℚ) ≤ AppConfig.default.margin ∧
    calculate_window_width AppConfig.default <
      calculate_window_width
        { AppConfig.default with keys := AppConfig.default.keys ++ [extraKeyC] } :=
  ⟨by norm_num [AppConfig.default, extraKeyC], by norm_num [AppConfig.default],
    by norm_num [AppConfig.default],
    window_width_formula.2.2 AppConfig.default extraKeyC
      (by norm_num [AppConfig.default, extraKeyC])
      (by norm_num [AppConfig.default]) (by norm_num [AppConfig.default])⟩

/-- C9: advancing by a nonpositive delta-time is a complete no-op: every
column, every bar's `y_position` and `height`, the press counters and the held
flags are all left unchanged. -/
theorem advance_nonpositive_dt_noop (m : BarManager) (dt : ℚ) (hdt : dt ≤ 0) :
    m.update dt = m := by
  obtain ⟨cols, speed⟩ := m
  simp only [BarManager.update, BarManager.mk.injEq, and_true]
  funext k
  cases hk : cols k with
  | none => simp
  | some c =>
      simp only [Option.map_some']
      have : c.update dt speed = c := by
        unfold BarColumn.update
        rw [if_pos hdt]
      rw [this]

theorem advance_nonpositive_dt_noop_witness :
    (0:ℚ) ≤ 0 ∧ managerZ.update 0 = managerZ :=
  ⟨le_refl 0, advance_nonpositive_dt_noop managerZ 0 (le_refl 0)⟩

/-- C5: the cull pass removes, from every column, exactly the bars whose
`y_position` strictly exceeds the window height (a bar sitting exactly at the
window height survives), and survivors keep their relative order. -/
theorem cull_removes_exactly_offscreen (m : BarManager) (h : ℚ) (k : String) :
    (m.columns k = none → (m.remove_offscreen h).columns k = none) ∧
    (∀ col, m.columns k = some col →
      ∃ col', (m.remove_offscreen h).columns k = some col' ∧
        col'.press_count = col.press_count ∧
        col'.is_held = col.is_held ∧
        List.Sublist col'.bars col.bars ∧
        (∀ b, b ∈ col'.bars ↔ b ∈ col.bars ∧ b.y_position ≤ h) ∧
        (∀ b, b.y_position ≤ h → col'.bars.count b = col.bars.count b) ∧
        (∀ b, h < b.y_position → col'.bars.count b = 0)) := by
  constructor
  · intro hnone
    simp [BarManager.remove_offscreen, hnone]
  · intro col hcol
    refine ⟨col.remove_offscreen h,
      by simp [BarManager.remove_offscreen, hcol], rfl, rfl, ?_, ?_, ?_, ?_⟩
    · exact List.filter_sublist _
    · intro b
      simp [BarColumn.remove_offscreen, List.mem_filter]
    · intro b hb
      exact List.count_filter (by simpa using hb)
    · intro b hb
      rw [List.count_eq_zero]
      simp only [BarColumn.remove_offscreen, List.mem_filter, decide_eq_true_eq]
      intro hcontra
      exact absurd hcontra.2 (not_le.mpr hb)

theorem cull_removes_exactly_offscreen_witness :
    ((cullManager.remove_offscreen 700).columns "Z").map
        (fun c => c.bars.map Bar.y_position) = some [25, 700] ∧
    cullManager.columns "Z" = some cullColumnZ ∧
    (∃ col', (cullManager.remove_offscreen 700).columns "Z" = some col' ∧
      col'.press_count = cullColumnZ.press_count ∧
      col'.is_held = cullColumnZ.is_held ∧
      List.Sublist col'.bars cullColumnZ.bars ∧
      (∀ b, b ∈ col'.bars ↔ b ∈ cullColumnZ.bars ∧ b.y_position ≤ 700) ∧
      (∀ b, b.y_position ≤ 700 → col'.bars.count b = cullColumnZ.bars.count b) ∧
      (∀ b, 700 < b.y_position → col'.bars.count b = 0)) :=
  ⟨by decide, rfl,
    (cull_removes_exactly_offscreen cullManager 700 "Z").2 cullColumnZ rfl⟩

theorem mapLast_length (f : Bar → Bar) : ∀ l : List Bar, (mapLast f l).length = l.length := by
  intro l
  induction l with
  | nil => rfl
  | cons b rest ih =>
      cases rest with
      | nil => rfl
      | cons c rest2 => simpa [mapLast] using ih

theorem mapLast_getElem?_of_lt (f : Bar → Bar) :
    ∀ (l : List Bar) (i : ℕ), i + 1 < l.length → (mapLast f l)[i]? = l[i]? := by
  intro l
  induction l with
  | nil => intro i hi; simp at hi
  | cons b rest ih =>
      intro i hi
      cases rest with
      | nil => simp at hi
      | cons c rest2 =>
          cases i with
          | zero => simp [mapLast]
          | succ j =>
              simp only [mapLast, List.getElem?_cons_succ]
              exact ih j (by simpa using hi)

theorem mapLast_getElem?_proj (f : Bar → Bar) (proj : Bar → ℚ)
    (hproj : ∀ b, proj (f b) = proj b) :
    ∀ (l : List Bar) (i : ℕ), ((mapLast f l)[i]?).map proj = (l[i]?).map proj := by
  intro l
  induction l with
  | nil => intro i; rfl
  | cons b rest ih =>
      intro i
      cases rest with
      | nil =>
          cases i with
          | zero => simp [mapLast, hproj]
          | succ j => rfl
      | cons c rest2 =>
          cases i with
          | zero => simp [mapLast]
          | succ j =>
              simp only [mapLast, List.getElem?_cons_succ]
              exact ih j

theorem mapLast_getLast? (f : Bar → Bar) :
    ∀ l : List Bar, (mapLast f l).getLast? = l.getLast?.map f := by
  intro l
  induction l with
  | nil => rfl
  | cons b rest ih =>
      cases rest with
      | nil => rfl
      | cons c rest2 =>
          have h1 : mapLast f (b :: c :: rest2) = b :: mapLast f (c :: rest2) := by
            simp [mapLast]
          rw [h1, List.getLast?_cons_cons, ← ih]
          cases h2 : mapLast f (c :: rest2) with
          | nil =>
              exact absurd (congrArg List.length h2) (by simp [mapLast_length])
          | cons d rest3 => rw [List.getLast?_cons_cons]

theorem barColumn_update_pos_held (c : BarColumn) (dt speed : ℚ) (hdt : 0 < dt)
    (hheld : c.is_held = true) :
    c.update dt speed =
      { c with
        bars := mapLast (fun b => { b with height := b.height + speed * dt })
          (c.bars.map fun b => { b with y_position := b.y_position + speed * dt }) } := by
  unfold BarColumn.update
  rw [if_neg (not_le.mpr hdt), if_pos hheld]

theorem barColumn_update_pos_not_held (c : BarColumn) (dt speed : ℚ) (hdt : 0 < dt)
    (hheld : c.is_held = false) :
    c.update dt speed =
      { c with
        bars := c.bars.map fun b => { b with y_position := b.y_position + speed * dt } } := by
  unfold BarColumn.update
  rw [if_neg (not_le.mpr hdt), if_neg (by simp [hheld])]

theorem barColumn_update_pos (c : BarColumn) (dt speed : ℚ) (hdt : 0 < dt) :
    (c.update dt speed).press_count = c.press_count ∧
    (c.update dt speed).is_held = c.is_held ∧
    (c.update dt speed).bars.length = c.bars.length ∧
    (∀ i : ℕ, ((c.update dt speed).bars[i]?).map Bar.y_position
      = (c.bars[i]?).map (fun b : Bar => b.y_position + speed * dt)) ∧
    (c.is_held = false → ∀ i : ℕ, ((c.update dt speed).bars[i]?).map Bar.height
      = (c.bars[i]?).map Bar.height) ∧
    (c.is_held = true →
      (∀ i : ℕ, i + 1 < c.bars.length →
        ((c.update dt speed).bars[i]?).map Bar.height = (c.bars[i]?).map Bar.height) ∧
      ((c.update dt speed).bars.getLast?).map Bar.height
        = (c.bars.getLast?).map (fun b : Bar => b.height + speed * dt)) := by
  cases hheld : c.is_held with
  | true =>
      rw [barColumn_update_pos_held c dt speed hdt hheld]
      refine ⟨rfl, hheld, ?_, ?_, fun hcontra => by simp [hheld] at hcontra, fun _ => ⟨?_, ?_⟩⟩
      · simp [mapLast_length]
      · intro i
        rw [mapLast_getElem?_proj (fun b => { b with height := b.height + speed * dt })
          Bar.y_position (fun b => rfl), List.getElem?_map]
        cases c.bars[i]? <;> rfl
      · intro i hi
        rw [mapLast_getElem?_of_lt _ _ i (by simpa using hi), List.getElem?_map]
        cases c.bars[i]? <;> rfl
      · rw [mapLast_getLast?, List.getLast?_map]
        cases c.bars.getLast? <;> rfl
  | false =>
      rw [barColumn_update_pos_not_held c dt speed hdt hheld]
      refine ⟨rfl, hheld, by simp, ?_, fun _ i => ?_,
        fun hcontra => by simp [hheld] at hcontra⟩
      · intro i
        rw [List.getElem?_map]
        cases c.bars[i]? <;> rfl
      · rw [List.getElem?_map]
        cases c.bars[i]? <;> rfl

/-- C4 (amended): for `dt > 0`, advancing grows the held column's last bar
height by exactly `bar_speed * dt`, leaves the heights of all other bars of
that column unchanged, leaves the heights of bars in every column that is not
held unchanged (each simultaneously held column's own last bar grows likewise),
and adds `bar_speed * dt` to every bar's `y_position` in every column; pressing
"Z" and advancing by `dt = 1/2` with `bar_speed = 60` yields a bar with height
31 at `y_position` 30. -/
theorem advance_held_column_growth (m : BarManager) (k : String) (col : BarColumn)
    (dt : ℚ) (hdt : 0 < dt) (hcol : m.columns k = some col)
    (hheld : col.is_held = true) (_hne : col.bars ≠ []) :
    (∃ col', (m.update dt).columns k = some col' ∧
      col'.bars.length = col.bars.length ∧
      ((col'.bars.getLast?).map Bar.height
        = (col.bars.getLast?).map (fun b : Bar => b.height + m.bar_speed * dt)) ∧
      (∀ i : ℕ, i + 1 < col.bars.length →
        (col'.bars[i]?).map Bar.height = (col.bars[i]?).map Bar.height) ∧
      (∀ i : ℕ, (col'.bars[i]?).map Bar.y_position
        = (col.bars[i]?).map (fun b : Bar => b.y_position + m.bar_speed * dt))) ∧
    (∀ k2 col2, m.columns k2 = some col2 →
      ∃ col2', (m.update dt).columns k2 = some col2' ∧
        (col2.is_held = false →
          ∀ i : ℕ, (col2'.bars[i]?).map Bar.height = (col2.bars[i]?).map Bar.height) ∧
        (∀ i : ℕ, (col2'.bars[i]?).map Bar.y_position
          = (col2.bars[i]?).map (fun b : Bar => b.y_position + m.bar_speed * dt))) ∧
    ((managerZ.update (1/2)).columns "Z").map
        (fun c => c.bars.map fun b : Bar => (b.y_position, b.height)) = some [(30, 31)] := by
  refine ⟨?_, ?_, ?_⟩
  · obtain ⟨h1, h2, h3, h4, h5, h6⟩ := barColumn_update_pos col dt m.bar_speed hdt
    exact ⟨col.update dt m.bar_speed, by simp [BarManager.update, hcol], h3,
      (h6 hheld).2, (h6 hheld).1, h4⟩
  · intro k2 col2 hcol2
    obtain ⟨h1, h2, h3, h4, h5, h6⟩ := barColumn_update_pos col2 dt m.bar_speed hdt
    exact ⟨col2.update dt m.bar_speed, by simp [BarManager.update, hcol2], h5, h4⟩
  · have hZ : (managerZ.update (1/2)).columns "Z" = some (columnZ1.update (1/2) 60) := rfl
    rw [hZ, barColumn_update_pos_held columnZ1 (1/2) 60 (by norm_num) rfl]
    norm_num [columnZ1, BarColumn.on_key_press, BarColumn.new, mapLast]

/-- C4 counterexample: with two simultaneously held columns the claim's "all
bars in other columns are unaffected in height" fails — while "Z" is a held
column, advancing by `dt = 1/2` at `bar_speed = 60` also grows the bar of the
other column "X" from height 1 to height 31. -/
theorem advance_other_held_column_height_changes :
    (managerZX.columns "Z").map BarColumn.is_held = some true ∧
    (managerZX.columns "X").map (fun c => c.bars.map Bar.height) = some [1] ∧
    ((managerZX.update (1/2)).columns "X").map (fun c => c.bars.map Bar.height)
      = some [31] := by
  refine ⟨rfl, rfl, ?_⟩
  have hX : (managerZX.update (1/2)).columns "X"
      = some (((BarColumn.new sampleColor).on_key_press).update (1/2) 60) := rfl
  rw [hX, barColumn_update_pos_held _ (1/2) 60 (by norm_num) rfl]
  norm_num [BarColumn.on_key_press, BarColumn.new, mapLast]

theorem advance_held_column_growth_witness :
    ((0:ℚ) < 1/2 ∧ managerZ.columns "Z" = some columnZ1 ∧
      columnZ1.is_held = true ∧ columnZ1.bars ≠ []) ∧
    (∃ col', (managerZ.update (1/2)).columns "Z" = some col' ∧
      col'.bars.length = columnZ1.bars.length ∧
      ((col'.bars.getLast?).map Bar.height
        = (columnZ1.bars.getLast?).map (fun b : Bar => b.height + managerZ.bar_speed * (1/2))) ∧
      (∀ i : ℕ, i + 1 < columnZ1.bars.length →
        (col'.bars[i]?).map Bar.height = (columnZ1.bars[i]?).map Bar.height) ∧
      (∀ i : ℕ, (col'.bars[i]?).map Bar.y_position
        = (columnZ1.bars[i]?).map (fun b : Bar => b.y_position + managerZ.bar_speed * (1/2)))) :=
  ⟨⟨by norm_num, rfl, rfl, by simp [columnZ1, BarColumn.on_key_press, BarColumn.new]⟩,
    (advance_held_column_growth managerZ "Z" columnZ1 (1/2) (by norm_num)
      rfl rfl (by simp [columnZ1, BarColumn.on_key_press, BarColumn.new])).1⟩

/-- C10: a press event for a key whose canonical identifier is absent from the
active configuration's key list leaves the renderer — and with it the whole
animation state: columns, bars, press counters — completely unchanged. -/
theorem unconfigured_key_press_noop (r : Renderer) (key_name : String)
    (habsent : ∀ key ∈ r.config.keys, key.key_name ≠ key_name) :
    r.on_key_press key_name = r := by
  have hfind : r.config.keys.find? (fun key => key.key_name == key_name) = none := by
    rw [List.find?_eq_none]
    intro key hkey
    simpa using habsent key hkey
  unfold Renderer.on_key_press
  rw [hfind]

theorem unconfigured_key_press_noop_witness :
    (∀ key ∈ (Renderer.new AppConfig.default).config.keys, key.key_name ≠ "Q") ∧
    (Renderer.new AppConfig.default).on_key_press "Q" = Renderer.new AppConfig.default :=
  ⟨by simp [Renderer.new, AppConfig.default],
    unconfigured_key_press_noop (Renderer.new AppConfig.default) "Q"
      (by simp [Renderer.new, AppConfig.default])⟩

theorem set_config_set_config (r : Renderer) (c1 c2 : AppConfig) :
    (r.set_config c1).set_config c2 = r.set_config c2 := rfl

theorem foldl_set_config_then_set_config :
    ∀ (earlier : List AppConfig) (r : Renderer) (last : AppConfig),
      (earlier.foldl Renderer.set_config r).set_config last = r.set_config last := by
  intro earlier
  induction earlier with
  | nil => intro r last; rfl
  | cons c rest ih =>
      intro r last
      rw [List.foldl_cons, ih]
      exact set_config_set_config r c last

/-- C3: draining a non-empty batch of pending snapshots leaves the renderer —
its active configuration, recomputed key positions, and the animation engine's
`bar_speed` — in exactly the state reached by applying only the last snapshot;
earlier snapshots in the batch are superseded; an empty batch changes nothing. -/
theorem config_drain_last_snapshot_wins (st : AppOrchestrator) :
    (∀ (earlier : List AppConfig) (last : AppConfig),
      st.process_config_updates (earlier ++ [last])
        = { st with renderer := st.renderer.set_config last }) ∧
    st.process_config_updates [] = st := by
  constructor
  · intro earlier last
    unfold AppOrchestrator.process_config_updates
    rw [List.foldl_append, List.foldl_cons, List.foldl_nil,
      foldl_set_config_then_set_config]
  · rfl

theorem keyXPositionsAux_length (config : AppConfig) :
    ∀ (keys : List KeyConfig) (x : ℚ), (keyXPositionsAux config keys x).length = keys.length := by
  intro keys
  induction keys with
  | nil => intro x; rfl
  | cons k rest ih => intro x; simp [keyXPositionsAux, ih]

theorem keyXPositionsAux_getElem (config : AppConfig) :
    ∀ (keys : List KeyConfig) (x : ℚ) (i : ℕ), i < keys.length →
      (keyXPositionsAux config keys x)[i]? =
        some (x + ((keys.take i).map fun key =>
          calculate_column_width config.key_size key.size
            config.outline_thickness config.margin).sum) := by
  intro keys
  induction keys with
  | nil => intro x i hi; simp at hi
  | cons k rest ih =>
      intro x i hi
      cases i with
      | zero => simp [keyXPositionsAux]
      | succ j =>
          simp only [keyXPositionsAux, List.getElem?_cons_succ]
          rw [ih _ j (by simpa using hi)]
          simp only [List.take_succ_cons, List.map_cons, List.sum_cons]
          exact congrArg some (by ring)

theorem keyXPositionsAux_chain (config : AppConfig) :
    ∀ (keys : List KeyConfig) (x : ℚ),
      (∀ key ∈ keys, 0 < calculate_column_width config.key_size key.size
        config.outline_thickness config.margin) →
      List.Chain' (· < ·) (keyXPositionsAux config keys x) := by
  intro keys
  induction keys with
  | nil => intro x _; simp [keyXPositionsAux]
  | cons k rest ih =>
      intro x hpos
      simp only [keyXPositionsAux]
      rw [List.chain'_cons']
      constructor
      · intro y hy
        cases rest with
        | nil => simp [keyXPositionsAux] at hy
        | cons k2 rest2 =>
            simp only [keyXPositionsAux, List.head?_cons, Option.mem_def,
              Option.some.injEq] at hy
            have hk : 0 < calculate_column_width config.key_size k.size
                config.outline_thickness config.margin := hpos k (by simp)
            rw [← hy]
            linarith
      · exact ih _ (fun key hk => hpos key (by simp [hk]))

/-- C8: with a positive `key_size`, positive margin, positive outline thickness
and positive size multipliers, the per-key x-offsets are strictly increasing
left to right, the first offset equals the initial margin, and consecutive key
columns do not overlap: each offset is at least (indeed, exactly) the previous
offset plus the previous key's column width. -/
theorem key_x_offsets_monotone (config : AppConfig)
    (hkey : 0 < config.key_size) (hmargin : 0 < config.margin)
    (houtline : 0 < config.outline_thickness)
    (hsizes : ∀ key ∈ config.keys, 0 < key.size) :
    (calculate_key_x_positions config).length = config.keys.length ∧
    (config.keys ≠ [] → (calculate_key_x_positions config)[0]? = some config.margin) ∧
    (∀ (i : ℕ) (key : KeyConfig), config.keys[i]? = some key →
      i + 1 < config.keys.length →
      ∃ x y, (calculate_key_x_positions config)[i]? = some x ∧
        (calculate_key_x_positions config)[i+1]? = some y ∧
        x + calculate_column_width config.key_size key.size
          config.outline_thickness config.margin ≤ y ∧
        x < y) ∧
    List.Pairwise (· < ·) (calculate_key_x_positions config) := by
  have hwidth : ∀ key ∈ config.keys, 0 < calculate_column_width config.key_size key.size
      config.outline_thickness config.margin := by
    intro key hk
    have hs := hsizes key hk
    have hmul : 0 < config.key_size * key.size := mul_pos hkey hs
    simp only [calculate_column_width]
    linarith
  refine ⟨keyXPositionsAux_length config config.keys config.margin, ?_, ?_, ?_⟩
  · intro hne
    cases hk : config.keys with
    | nil => exact absurd hk hne
    | cons k rest =>
        simp [calculate_key_x_positions, hk, keyXPositionsAux]
  · intro i key hkeyi hlt
    have hi : i < config.keys.length := Nat.lt_of_succ_lt hlt
    have h1 := keyXPositionsAux_getElem config config.keys config.margin i hi
    have h2 := keyXPositionsAux_getElem config config.keys config.margin (i+1) hlt
    have htake : (config.keys.take (i+1)).map (fun key =>
        calculate_column_width config.key_size key.size
          config.outline_thickness config.margin)
        = (config.keys.take i).map (fun key =>
            calculate_column_width config.key_size key.size
              config.outline_thickness config.margin)
          ++ [calculate_column_width config.key_size key.size
                config.outline_thickness config.margin] := by
      rw [List.take_succ, hkeyi]
      simp
    have hwk : 0 < calculate_column_width config.key_size key.size
        config.outline_thickness config.margin :=
      hwidth key (List.getElem?_mem hkeyi)
    refine ⟨config.margin + ((config.keys.take i).map fun key2 =>
        calculate_column_width config.key_size key2.size
          config.outline_thickness config.margin).sum,
      config.margin + ((config.keys.take (i+1)).map fun key2 =>
        calculate_column_width config.key_size key2.size
          config.outline_thickness config.margin).sum,
      h1, h2, ?_, ?_⟩
    · rw [htake]
      simp only [List.sum_append, List.sum_cons, List.sum_nil]
      linarith
    · rw [htake]
      simp only [List.sum_append, List.sum_cons, List.sum_nil]
      linarith
  · rw [← List.chain'_iff_pairwise]
    exact keyXPositionsAux_chain config config.keys config.margin hwidth

theorem key_x_offsets_monotone_witness :
    ((0:ℚ) < AppConfig.default.key_size ∧ (0:ℚ) < AppConfig.default.margin ∧
      (0:ℚ) < AppConfig.default.outline_thickness ∧
      ∀ key ∈ AppConfig.default.keys, 0 < key.size) ∧
    List.Pairwise (· < ·) (calculate_key_x_positions AppConfig.default) :=
  ⟨⟨by norm_num [AppConfig.default], by norm_num [AppConfig.default],
      by norm_num [AppConfig.default],
      by intro key hk; simp [AppConfig.default] at hk
         rcases hk with h | h <;> simp [h]⟩,
    (key_x_offsets_monotone AppConfig.default (by norm_num [AppConfig.default])
      (by norm_num [AppConfig.default]) (by norm_num [AppConfig.default])
      (by intro key hk; simp [AppConfig.default] at hk
          rcases hk with h | h <;> simp [h])).2.2.2⟩

/-- C2: the double-tap cancel detector closes exactly on a second edge-triggered
press while armed and within the interval: a repeated press while the key is
already down is ignored and changes nothing; an idle press arms with the press
timestamp and does not close; an armed press within the interval closes and
clears the timer; an armed press past the interval re-arms with the new
timestamp and does not close; a release clears only the currently-down bit and
leaves the armed timestamp intact; end to end, a double tap of the cancel key
within the interval closes, while a single press or two presses farther apart
than the interval do not. -/
theorem double_escape_detector_spec :
    ∀ (st : AppOrchestrator) (now : ℚ),
      (st.escape_down = true → st.should_close_on_double_escape now = (false, st)) ∧
      (st.escape_down = false → st.last_escape_press_at = none →
        st.should_close_on_double_escape now
          = (false, { st with escape_down := true, last_escape_press_at := some now })) ∧
      (∀ previous, st.escape_down = false →
        st.last_escape_press_at = some previous →
        durationSince now previous ≤ doubleEscapeInterval →
        st.should_close_on_double_escape now
          = (true, { st with escape_down := true, last_escape_press_at := none })) ∧
      (∀ previous, st.escape_down = false →
        st.last_escape_press_at = some previous →
        doubleEscapeInterval < durationSince now previous →
        st.should_close_on_double_escape now
          = (false, { st with escape_down := true, last_escape_press_at := some now })) ∧
      (∀ focused, (st.handle_event focused (.KeyRelease escapeKeyName) now).1 = false ∧
        (st.handle_event focused (.KeyRelease escapeKeyName) now).2.escape_down = false ∧
        (st.handle_event focused (.KeyRelease escapeKeyName) now).2.last_escape_press_at
          = st.last_escape_press_at) ∧
      (freshOrchestrator.process_input_events true
        [(.KeyPress escapeKeyName, 0), (.KeyRelease escapeKeyName, 100),
         (.KeyPress escapeKeyName, 300)]).1 = true ∧
      (freshOrchestrator.process_input_events true
        [(.KeyPress escapeKeyName, 0)]).1 = false ∧
      (freshOrchestrator.process_input_events true
        [(.KeyPress escapeKeyName, 0), (.KeyRelease escapeKeyName, 100),
         (.KeyPress escapeKeyName, 500)]).1 = false := by
  intro st now
  refine ⟨?_, ?_, ?_, ?_, ?_, ?_, ?_, ?_⟩
  · intro hdown
    unfold AppOrchestrator.should_close_on_double_escape
    rw [if_pos hdown]
  · intro hdown hlast
    unfold AppOrchestrator.should_close_on_double_escape
    rw [if_neg (by simp [hdown])]
    rw [show ({ st with escape_down := true } : AppOrchestrator).last_escape_press_at
      = st.last_escape_press_at from rfl, hlast]
  · intro previous hdown hlast hwithin
    unfold AppOrchestrator.should_close_on_double_escape
    rw [if_neg (by simp [hdown])]
    rw [show ({ st with escape_down := true } : AppOrchestrator).last_escape_press_at
      = st.last_escape_press_at from rfl, hlast]
    simp only [if_pos hwithin]
  · intro previous hdown hlast hpast
    unfold AppOrchestrator.should_close_on_double_escape
    rw [if_neg (by simp [hdown])]
    rw [show ({ st with escape_down := true } : AppOrchestrator).last_escape_press_at
      = st.last_escape_press_at from rfl, hlast]
    simp only [if_neg (not_le.mpr hpast)]
  · intro focused
    refine ⟨rfl, rfl, rfl⟩
  · norm_num [freshOrchestrator, AppOrchestrator.new, AppOrchestrator.process_input_events,
      AppOrchestrator.handle_event, AppOrchestrator.should_close_on_double_escape,
      escapeKeyName, durationSince, doubleEscapeInterval]
  · norm_num [freshOrchestrator, AppOrchestrator.new, AppOrchestrator.process_input_events,
      AppOrchestrator.handle_event, AppOrchestrator.should_close_on_double_escape,
      escapeKeyName, durationSince, doubleEscapeInterval]
  · norm_num [freshOrchestrator, AppOrchestrator.new, AppOrchestrator.process_input_events,
      AppOrchestrator.handle_event, AppOrchestrator.should_close_on_double_escape,
      escapeKeyName, durationSince, doubleEscapeInterval]

theorem double_escape_detector_spec_witness :
    armedOrchestrator.escape_down = false ∧
    armedOrchestrator.last_escape_press_at = some 0 ∧
    durationSince 100 0 ≤ doubleEscapeInterval ∧
    armedOrchestrator.should_close_on_double_escape 100
      = (true, { armedOrchestrator with
                 escape_down := true, last_escape_press_at := none }) :=
  ⟨rfl, rfl, by norm_num [durationSince, doubleEscapeInterval],
    (double_escape_detector_spec armedOrchestrator 100).2.2.1 0 rfl rfl
      (by norm_num [durationSince, doubleEscapeInterval])⟩

theorem load_from_raw_of_resolve (raw : RawConfig) (config : AppConfig)
    (hres : resolveRaw raw = Except.ok config) :
    load_from_raw raw = Except.ok (applyValidationFixup config) := by
  unfold load_from_raw
  rw [hres]
  rfl

theorem applyValidationFixup_of_nonpos (config : AppConfig)
    (hle : config.bar_speed ≤ 0) :
    applyValidationFixup config = { config with bar_speed := 600 } := by
  have h1 : strContainsSub "bar_speed must be positive; using default 600" "bar_speed"
      = true := rfl
  have h2 : strContainsSub "keys list is empty; using defaults is recommended" "bar_speed"
      = false := rfl
  unfold applyValidationFixup validate_config
  rw [if_pos hle]
  cases hk : config.keys.isEmpty <;>
    simp [h1, h2, List.foldl, AppConfig.default]

theorem applyValidationFixup_of_pos (config : AppConfig)
    (hpos : 0 < config.bar_speed) :
    applyValidationFixup config = config := by
  have h2 : strContainsSub "keys list is empty; using defaults is recommended" "bar_speed"
      = false := rfl
  unfold applyValidationFixup validate_config
  rw [if_neg (not_le.mpr hpos)]
  cases hk : config.keys.isEmpty <;>
    simp [h2, List.foldl]

/-- C1 (amended): a snapshot whose resolved `bar_speed` is nonpositive is not
rejected as a whole: loading succeeds with `bar_speed` alone replaced by the
default 600 while every other field of the snapshot (height, keys, colors,
etc.) is applied; a snapshot with positive `bar_speed` is applied unchanged,
so every snapshot that reaches the config queue has `bar_speed > 0`. -/
theorem invalid_bar_speed_fixup (raw : RawConfig) (config : AppConfig)
    (hres : resolveRaw raw = Except.ok config) :
    (config.bar_speed ≤ 0 →
      load_from_raw raw = Except.ok { config with bar_speed := 600 }) ∧
    (0 < config.bar_speed → load_from_raw raw = Except.ok config) := by
  constructor
  · intro hle
    rw [load_from_raw_of_resolve raw config hres,
      applyValidationFixup_of_nonpos config hle]
  · intro hpos
    rw [load_from_raw_of_resolve raw config hres,
      applyValidationFixup_of_pos config hpos]

/-- C1 counterexample: the snapshot `rawNegSpeed` carries `bar_speed = -25 ≤ 0`
yet is not rejected as a whole: loading returns `Ok`, its `height = 800` field
is applied, and only `bar_speed` is replaced by the default 600 — so partial
application of the invalid snapshot does occur. -/
theorem invalid_bar_speed_rejection_cex :
    resolveRaw rawNegSpeed
      = Except.ok { AppConfig.default with height := 800, bar_speed := -25 } ∧
    load_from_raw rawNegSpeed
      = Except.ok { AppConfig.default with height := 800, bar_speed := 600 } := by
  have h1 : resolveRaw rawNegSpeed
      = Except.ok { AppConfig.default with height := 800, bar_speed := -25 } := rfl
  refine ⟨h1, ?_⟩
  rw [load_from_raw_of_resolve _ _ h1,
    applyValidationFixup_of_nonpos _ (show (-25:ℚ) ≤ 0 by norm_num)]

theorem invalid_bar_speed_fixup_witness :
    resolveRaw rawNegSpeed
      = Except.ok { AppConfig.default with height := 800, bar_speed := -25 } ∧
    ({ AppConfig.default with height := 800, bar_speed := -25 } : AppConfig).bar_speed ≤ 0 ∧
    load_from_raw rawNegSpeed
      = Except.ok { AppConfig.default with height := 800, bar_speed := 600 } :=
  ⟨rfl, show (-25:ℚ) ≤ 0 by norm_num,
    (invalid_bar_speed_fixup rawNegSpeed
        { AppConfig.default with height := 800, bar_speed := -25 } rfl).1
      (show (-25:ℚ) ≤ 0 by norm_num)⟩
